import Mathlib

/- Verification development for the money-planner financial engine.

   The TypeScript sources (src/utils/investmentCalculations.ts,
   src/utils/purchaseCalculations.ts, src/utils/calculations.ts) are embedded
   shallowly over exact rationals: every JavaScript number becomes a `ℚ`,
   `Math.round` becomes `jsRound` (floor of x + 1/2, which is exactly
   JavaScript's Math.round on finite inputs), `Number(x.toFixed(2))` becomes
   `toFixed2`, and the `Infinity` sentinel returned by the period solver is
   embedded as the top element of `ℕ∞`.  Bounded `while`/`for` loops are
   embedded as fuel-indexed structural recursions whose fuel is the exact
   iteration bound of the source loop.  String-valued and Date-valued record
   fields (goalId, productName, projectedCompletionDate) are omitted: they
   carry no numeric content.  The aggregate fields totalInvested/totalReturns
   of the investment simulation record are also omitted because they evaluate
   to JavaScript Infinity/NaN when the solver returns the unbounded marker. -/

/-- JavaScript Math.round on a rational: floor (q + 1/2). -/
def jsRound (q : ℚ) : ℤ := ⌊q + 1/2⌋

/-- JavaScript Number(q.toFixed(2)): round to 2 decimals, ties towards larger. -/
def toFixed2 (q : ℚ) : ℚ := (⌊q * 100 + 1/2⌋ : ℚ) / 100

/-- One month of the savings recurrence shared by every projection loop in the
    sources: balance * (1 + monthlyRate) + monthlyContribution. -/
def stepValue (ρ m v : ℚ) : ℚ := v * (1 + ρ) + m

/-- Balance after n applications of `stepValue`, starting from c.  This is the
    value of the running variable after n iterations of each projection loop. -/
def simValue (c ρ m : ℚ) : ℕ → ℚ
  | 0 => c
  | n + 1 => stepValue ρ m (simValue c ρ m n)

/-- The bounded while-loop of calculateInvestmentPeriod
    (src/utils/investmentCalculations.ts, lines 38-44):
    `while (currentValue < target && months < 1200) { step; months++ }`.
    The fuel argument counts the remaining allowed iterations (1200 - months),
    and the result is the number of iterations actually performed. -/
def periodLoop (t ρ m : ℚ) : ℕ → ℚ → ℕ
  | 0, _ => 0
  | fuel + 1, v => if v < t then periodLoop t ρ m fuel (stepValue ρ m v) + 1 else 0

/-- calculateInvestmentPeriod (src/utils/investmentCalculations.ts, lines 16-47).
    The JavaScript `Infinity` returned when monthlyInvestment <= 0 is embedded
    as the top element of `ℕ∞`; the zero-rate branch returns
    Math.ceil(remaining / monthlyInvestment) (a positive integer, uncapped);
    otherwise the bounded iteration loop runs with ceiling 1200. -/
def calculateInvestmentPeriod
    (currentAmount targetAmount monthlyInvestment annualReturn : ℚ) : ℕ∞ :=
  if targetAmount ≤ currentAmount then 0
  else if monthlyInvestment ≤ 0 then ⊤
  else
    let monthlyReturn := annualReturn / 12
    if monthlyReturn = 0 then
      ((⌈(targetAmount - currentAmount) / monthlyInvestment⌉.toNat : ℕ) : ℕ∞)
    else
      ((periodLoop targetAmount monthlyReturn monthlyInvestment 1200 currentAmount : ℕ) : ℕ∞)

/-- One scenario band of calculateInvestmentScenarios
    (src/utils/investmentCalculations.ts).  The source first creates the record
    with totalValue = totalReturns = 0 and then mutates it in the forEach at
    lines 162-178; this definition fuses creation and finalization.  The
    degraded branch stores the raw targetAmount, so totalValue is a rational. -/
structure InvestmentScenario where
  annualReturn : ℚ
  projectedMonths : ℕ∞
  totalValue : ℚ
  totalReturns : ℚ

/-- Builds one band: solve the period, then either replay the recurrence for
    projectedMonths steps (when the solved count is below the 1200 ceiling) or
    degrade to the bare targetAmount (lines 162-178 of the source). -/
def scenarioFinalize (currentAmount targetAmount monthlyInvestment annualReturn : ℚ) :
    InvestmentScenario :=
  let projectedMonths :=
    calculateInvestmentPeriod currentAmount targetAmount monthlyInvestment annualReturn
  if projectedMonths < 1200 then
    let monthlyReturn := annualReturn / 12
    let value := simValue currentAmount monthlyReturn monthlyInvestment projectedMonths.toNat
    ⟨annualReturn, projectedMonths, (jsRound value : ℚ),
      (jsRound (value - currentAmount - monthlyInvestment * projectedMonths.toNat) : ℚ)⟩
  else
    ⟨annualReturn, projectedMonths, targetAmount, 0⟩

structure InvestmentScenarios where
  conservative : InvestmentScenario
  expected : InvestmentScenario
  optimistic : InvestmentScenario

/-- calculateInvestmentScenarios (src/utils/investmentCalculations.ts,
    lines 128-181): fixed volatility 0.15, conservative floor 0.01. -/
def calculateInvestmentScenarios
    (currentAmount targetAmount monthlyInvestment expectedReturn : ℚ) :
    InvestmentScenarios :=
  let volatility : ℚ := 15/100
  let conservativeReturn := max (1/100) (expectedReturn - volatility)
  let optimisticReturn := expectedReturn + volatility
  ⟨scenarioFinalize currentAmount targetAmount monthlyInvestment conservativeReturn,
   scenarioFinalize currentAmount targetAmount monthlyInvestment expectedReturn,
   scenarioFinalize currentAmount targetAmount monthlyInvestment optimisticReturn⟩

/-- One row of the investment simulation trajectory
    (src/utils/investmentCalculations.ts, lines 82-90).  Monetary fields pushed
    through Math.round are integers. -/
structure MonthlyInvestmentProjection where
  month : ℕ
  monthlyInvestment : ℚ
  cumulativeInvestment : ℤ
  monthlyReturn : ℤ
  cumulativeReturns : ℤ
  totalValue : ℤ
  progress : ℚ

/-- The trajectory loop of calculateInvestmentSimulation
    (src/utils/investmentCalculations.ts, lines 73-93):
    `for (month = 1; month <= min(projectedMonths, 600); month++) { ...;
    push; if (totalValue >= targetAmount) break }`.  The fuel argument is the
    number of remaining permitted iterations. -/
def simLoop (t ρ m : ℚ) : ℕ → ℕ → ℚ → ℚ → ℚ → List MonthlyInvestmentProjection
  | 0, _, _, _, _ => []
  | fuel + 1, month, v, cumInvest, cumReturns =>
    let monthlyReturnAmount := v * ρ
    let v2 := v * (1 + ρ) + m
    let cumInvest2 := cumInvest + m
    let cumReturns2 := cumReturns + monthlyReturnAmount
    let progress := min (v2 / t * 100) 100
    let p : MonthlyInvestmentProjection :=
      ⟨month, m, jsRound cumInvest2, jsRound monthlyReturnAmount, jsRound cumReturns2,
        jsRound v2, (jsRound (progress * 100) : ℚ) / 100⟩
    if t ≤ v2 then [p] else p :: simLoop t ρ m fuel (month + 1) v2 cumInvest2 cumReturns2

/-- The numeric core of the InvestmentSimulation record
    (src/utils/investmentCalculations.ts, lines 110-122). -/
structure InvestmentSimulation where
  currentAmount : ℚ
  targetAmount : ℚ
  monthlyInvestment : ℚ
  annualReturn : ℚ
  projectedMonths : ℕ∞
  monthlyProjections : List MonthlyInvestmentProjection
  scenarios : InvestmentScenarios

/-- calculateInvestmentSimulation (src/utils/investmentCalculations.ts,
    lines 52-123).  The for-loop bound `Math.min(projectedMonths, 600)` is
    600 when the solver returned Infinity. -/
def calculateInvestmentSimulation
    (currentAmount targetAmount monthlyInvestment annualReturn : ℚ) :
    InvestmentSimulation :=
  let monthlyReturn := annualReturn / 12
  let projectedMonths :=
    calculateInvestmentPeriod currentAmount targetAmount monthlyInvestment annualReturn
  let monthlyProjections :=
    simLoop targetAmount monthlyReturn monthlyInvestment
      (min projectedMonths 600).toNat 1 currentAmount 0 0
  ⟨currentAmount, targetAmount, monthlyInvestment, annualReturn, projectedMonths,
   monthlyProjections,
   calculateInvestmentScenarios currentAmount targetAmount monthlyInvestment annualReturn⟩

/-- calculateMonthlyPayment (src/utils/calculations.ts, lines 58-72): the
    level-payment amortization formula, with the zero-rate branch degrading to
    linear division. -/
def calculateMonthlyPayment (principal rate : ℚ) (years : ℕ) : ℚ :=
  let monthlyRate := rate / 12
  let totalPayments := years * 12
  if rate = 0 then principal / totalPayments
  else
    principal * (monthlyRate * (1 + monthlyRate) ^ totalPayments) /
      ((1 + monthlyRate) ^ totalPayments - 1)

/-- One row of the amortization schedule (src/utils/calculations.ts,
    lines 130-136); every monetary field passes through Number(x.toFixed(2)). -/
structure LoanScheduleRow where
  month : ℕ
  payment : ℚ
  principal : ℚ
  interest : ℚ
  remainingBalance : ℚ

/-- The schedule loop of calculateLoanDetails (src/utils/calculations.ts,
    lines 124-137).  Returns the rows together with the accumulated raw total
    interest.  The fuel argument is the number of remaining months. -/
def loanLoop (pay ρ : ℚ) : ℕ → ℕ → ℚ → List LoanScheduleRow × ℚ
  | 0, _, _ => ([], 0)
  | fuel + 1, month, balance =>
    let interestPayment := balance * ρ
    let principalPayment := pay - interestPayment
    let balance2 := balance - principalPayment
    let rest := loanLoop pay ρ fuel (month + 1) balance2
    (⟨month, toFixed2 pay, toFixed2 principalPayment, toFixed2 interestPayment,
       toFixed2 (max 0 balance2)⟩ :: rest.1,
     interestPayment + rest.2)

structure LoanCalculationResult where
  monthlyPayment : ℚ
  totalPayment : ℚ
  totalInterest : ℚ
  paymentSchedule : List LoanScheduleRow

/-- calculateLoanDetails (src/utils/calculations.ts, lines 111-145). -/
def calculateLoanDetails (principal rate : ℚ) (years : ℕ) : LoanCalculationResult :=
  let monthlyPayment := calculateMonthlyPayment principal rate years
  let monthlyRate := rate / 12
  let totalPayments := years * 12
  let run := loanLoop monthlyPayment monthlyRate totalPayments 1 principal
  ⟨toFixed2 monthlyPayment, toFixed2 (monthlyPayment * totalPayments),
   toFixed2 run.2, run.1⟩

/-- calculateMonthlyLoanPayment (src/utils/purchaseCalculations.ts,
    lines 15-27): level payment over a term given in months. -/
def calculateMonthlyLoanPayment (principal annualRate : ℚ) (months : ℕ) : ℚ :=
  if annualRate = 0 then principal / months
  else
    let monthlyRate := annualRate / 12
    let factor := (1 + monthlyRate) ^ months
    principal * (monthlyRate * factor) / (factor - 1)

/-- One row of the opportunity-cost projection
    (src/utils/purchaseCalculations.ts, lines 55-60).  The loanBalance and
    loanPayment fields are absent (undefined) in the base analysis and are
    filled in by the loan-overlay pass, hence the Option type. -/
structure MonthlyOpportunityProjection where
  month : ℕ
  investmentContribution : ℚ
  investmentValue : ℤ
  netWorth : ℤ
  loanBalance : Option ℤ
  loanPayment : Option ℤ

/-- The projection loop of calculateOpportunityAnalysis
    (src/utils/purchaseCalculations.ts, lines 49-61): every iteration pushes a
    row whose investmentValue and netWorth both round the running value. -/
def oppLoop (ρ m : ℚ) : ℕ → ℕ → ℚ → List MonthlyOpportunityProjection
  | 0, _, _ => []
  | fuel + 1, month, v =>
    let v2 := v * (1 + ρ) + m
    ⟨month, m, jsRound v2, jsRound v2, none, none⟩ :: oppLoop ρ m fuel (month + 1) v2

structure OpportunityAnalysis where
  totalInvested : ℤ
  investmentReturns : ℤ
  finalValue : ℤ
  monthlyProjections : List MonthlyOpportunityProjection

/-- calculateOpportunityAnalysis (src/utils/purchaseCalculations.ts,
    lines 36-72).  After the loop the running totalInvested equals
    initialAmount + monthlyInvestment * months and the running investmentValue
    equals simValue at months. -/
def calculateOpportunityAnalysis
    (initialAmount monthlyInvestment annualReturn : ℚ) (months : ℕ) :
    OpportunityAnalysis :=
  let monthlyReturn := annualReturn / 12
  let monthlyProjections := oppLoop monthlyReturn monthlyInvestment months 1 initialAmount
  let totalInvested := initialAmount + monthlyInvestment * months
  let finalValue := jsRound (simValue initialAmount monthlyReturn monthlyInvestment months)
  ⟨jsRound totalInvested, jsRound ((finalValue : ℚ) - totalInvested), finalValue,
   monthlyProjections⟩

/-- The numeric fields of the LumpSumScenario record
    (src/utils/purchaseCalculations.ts, lines 82-110). -/
structure LumpSumScenario where
  initialPayment : ℚ
  remainingSavings : ℚ
  investmentReturn : ℚ
  projectedYears : ℚ
  monthlyInvestment : ℚ
  finalAssets : ℤ
  totalCost : ℚ
  opportunity : OpportunityAnalysis

/-- calculateLumpSumScenario (src/utils/purchaseCalculations.ts, lines 82-110).
    The analysis horizon Math.round(projectedYears * 12) is clamped to 0
    through Int.toNat, matching a JavaScript for-loop that does not execute
    when its bound is negative. -/
def calculateLumpSumScenario
    (productPrice currentSavings investmentReturn projectedYears monthlyInvestment : ℚ) :
    LumpSumScenario :=
  let remainingSavings := max 0 (currentSavings - productPrice)
  let months := (jsRound (projectedYears * 12)).toNat
  let opportunity :=
    calculateOpportunityAnalysis remainingSavings monthlyInvestment investmentReturn months
  ⟨productPrice, remainingSavings, investmentReturn, projectedYears, monthlyInvestment,
   opportunity.finalValue, productPrice, opportunity⟩

/-- The loan-balance overlay pass of calculateLoanScenario
    (src/utils/purchaseCalculations.ts, lines 152-172): walks the base
    projections in month order while amortizing the outstanding balance, and
    overrides netWorth with investmentValue minus the outstanding balance while
    inside the loan term. -/
def loanOverlay (pay ρ : ℚ) (term : ℕ) :
    List MonthlyOpportunityProjection → ℕ → ℚ → List MonthlyOpportunityProjection
  | [], _, _ => []
  | o :: rest, month, balance =>
    let balance2 :=
      if month ≤ term then max 0 (balance - (pay - balance * ρ)) else balance
    { o with
      loanBalance := some (if month ≤ term then jsRound balance2 else 0),
      loanPayment := some (if month ≤ term then jsRound pay else 0),
      netWorth :=
        jsRound ((o.investmentValue : ℚ) - (if month ≤ term then balance2 else 0)) } ::
      loanOverlay pay ρ term rest (month + 1) balance2

/-- The numeric fields of the LoanScenario record
    (src/utils/purchaseCalculations.ts, lines 174-191). -/
structure LoanScenario where
  downPayment : ℤ
  loanAmount : ℤ
  interestRate : ℚ
  loanTermMonths : ℕ
  monthlyPayment : ℤ
  totalInterest : ℤ
  totalCost : ℤ
  remainingSavings : ℤ
  investmentReturn : ℚ
  monthlyInvestment : ℚ
  finalAssets : ℤ
  opportunity : OpportunityAnalysis

/-- calculateLoanScenario (src/utils/purchaseCalculations.ts, lines 123-192). -/
def calculateLoanScenario
    (productPrice currentSavings downPaymentPercentage loanInterestRate : ℚ)
    (loanTermMonths : ℕ)
    (investmentReturn projectedYears additionalMonthlyInvestment : ℚ) : LoanScenario :=
  let downPayment := productPrice * (downPaymentPercentage / 100)
  let loanAmount := productPrice - downPayment
  let monthlyPayment := calculateMonthlyLoanPayment loanAmount loanInterestRate loanTermMonths
  let totalInterest := monthlyPayment * loanTermMonths - loanAmount
  let totalCost := productPrice + totalInterest
  let remainingSavings := max 0 (currentSavings - downPayment)
  let months := (jsRound (projectedYears * 12)).toNat
  let netMonthlyInvestment := max 0 (additionalMonthlyInvestment - monthlyPayment)
  let opportunity :=
    calculateOpportunityAnalysis remainingSavings netMonthlyInvestment investmentReturn months
  let enhancedProjections :=
    loanOverlay monthlyPayment (loanInterestRate / 12) loanTermMonths
      opportunity.monthlyProjections 1 loanAmount
  ⟨jsRound downPayment, jsRound loanAmount, loanInterestRate, loanTermMonths,
   jsRound monthlyPayment, jsRound totalInterest, jsRound totalCost,
   jsRound remainingSavings, investmentReturn, netMonthlyInvestment,
   opportunity.finalValue,
   { opportunity with monthlyProjections := enhancedProjections }⟩

inductive PaymentMethod where
  | lump_sum : PaymentMethod
  | loan : PaymentMethod
deriving DecidableEq

/-- The numeric fields of the PurchaseSimulation record
    (src/utils/purchaseCalculations.ts, lines 238-247). -/
structure PurchaseSimulation where
  productPrice : ℚ
  currentSavings : ℚ
  lumpSumScenario : LumpSumScenario
  loanScenario : LoanScenario
  recommendation : PaymentMethod
  totalDifference : ℤ

/-- calculatePurchaseSimulation (src/utils/purchaseCalculations.ts,
    lines 197-248): the recommendation compares lump-sum final assets against
    loan final assets penalized by the financing excess cost, recommending
    lump_sum exactly when the signed difference is strictly positive. -/
def calculatePurchaseSimulation
    (productPrice currentSavings downPaymentPercentage interestRate : ℚ)
    (termMonths : ℕ)
    (investmentReturn projectedYears monthlyInvestmentCapacity : ℚ) :
    PurchaseSimulation :=
  let lumpSumScenario :=
    calculateLumpSumScenario productPrice currentSavings investmentReturn projectedYears
      monthlyInvestmentCapacity
  let loanScenario :=
    calculateLoanScenario productPrice currentSavings downPaymentPercentage interestRate
      termMonths investmentReturn projectedYears monthlyInvestmentCapacity
  let lumpSumNetWorth := (lumpSumScenario.finalAssets : ℚ)
  let loanNetWorth :=
    (loanScenario.finalAssets : ℚ) - ((loanScenario.totalCost : ℚ) - productPrice)
  let totalDifference := lumpSumNetWorth - loanNetWorth
  ⟨productPrice, currentSavings, lumpSumScenario, loanScenario,
   if 0 < totalDifference then PaymentMethod.lump_sum else PaymentMethod.loan,
   jsRound |totalDifference|⟩

/-- calculateROI (src/utils/purchaseCalculations.ts, lines 276-283).  The
    initialInvestment argument is accepted and ignored, exactly as in the
    source. -/
def calculateROI (initialInvestment finalAssets totalCost : ℚ) : ℚ :=
  if totalCost ≤ 0 then 0 else (finalAssets - totalCost) / totalCost * 100

/-- calculateROIForDownPayment (src/utils/purchaseCalculations.ts,
    lines 288-320).  The try/catch cannot fire in exact arithmetic, so the
    result is always the computed ROI and scenario. -/
def calculateROIForDownPayment
    (productPrice currentSavings downPaymentPercentage loanInterestRate : ℚ)
    (loanTermMonths : ℕ)
    (investmentReturn projectedYears monthlyInvestmentCapacity : ℚ) :
    ℚ × LoanScenario :=
  let loanScenario :=
    calculateLoanScenario productPrice currentSavings downPaymentPercentage
      loanInterestRate loanTermMonths investmentReturn projectedYears
      monthlyInvestmentCapacity
  (calculateROI currentSavings (loanScenario.finalAssets : ℚ) (loanScenario.totalCost : ℚ),
   loanScenario)

/-- One entry of the ROI sweep output (src/utils/purchaseCalculations.ts,
    lines 377-399).  The JavaScript -Infinity recorded for infeasible entries
    is embedded as the bottom element of `WithBot ℚ`. -/
structure ROIEntry where
  downPayment : ℚ
  roi : WithBot ℚ
  finalAssets : ℤ
  totalCost : ℤ
  monthlyPayment : ℤ
  feasible : Bool

/-- The down-payment percentages visited by the sweep loop
    `for (let dp = min; dp <= max; dp += 1)`: min, min+1, ... up to the last
    value not exceeding max (empty when max < min). -/
def sweepList (minDownPayment maxDownPayment : ℚ) : List ℚ :=
  if minDownPayment ≤ maxDownPayment then
    (List.range (⌊maxDownPayment - minDownPayment⌋.toNat + 1)).map
      (fun k : ℕ => minDownPayment + (k : ℚ))
  else []

/-- The body of the sweep loop of findOptimalDownPaymentForROI
    (src/utils/purchaseCalculations.ts, lines 360-400), processing the pending
    percentages while carrying the running maximum ROI (JavaScript -Infinity
    embedded as ⊥) and its percentage; returns the final running state and the
    emitted analysis entries. -/
def sweepLoop
    (productPrice currentSavings loanInterestRate : ℚ) (loanTermMonths : ℕ)
    (investmentReturn projectedYears monthlyInvestmentCapacity : ℚ) :
    List ℚ → WithBot ℚ → ℚ → WithBot ℚ × ℚ × List ROIEntry
  | [], maxROI, optimal => (maxROI, optimal, [])
  | dp :: rest, maxROI, optimal =>
    if productPrice * (dp / 100) ≤ currentSavings then
      let r :=
        calculateROIForDownPayment productPrice currentSavings dp loanInterestRate
          loanTermMonths investmentReturn projectedYears monthlyInvestmentCapacity
      let e : ROIEntry :=
        ⟨dp, (r.1 : WithBot ℚ), r.2.finalAssets, r.2.totalCost, r.2.monthlyPayment, true⟩
      let next :=
        if maxROI < (r.1 : WithBot ℚ) then ((r.1 : WithBot ℚ), dp) else (maxROI, optimal)
      let out :=
        sweepLoop productPrice currentSavings loanInterestRate loanTermMonths
          investmentReturn projectedYears monthlyInvestmentCapacity rest next.1 next.2
      (out.1, out.2.1, e :: out.2.2)
    else
      let e : ROIEntry := ⟨dp, ⊥, 0, 0, 0, false⟩
      let out :=
        sweepLoop productPrice currentSavings loanInterestRate loanTermMonths
          investmentReturn projectedYears monthlyInvestmentCapacity rest maxROI optimal
      (out.1, out.2.1, e :: out.2.2)

structure ROISweepResult where
  optimalDownPayment : ℚ
  maxROI : WithBot ℚ
  roiAnalysis : List ROIEntry

/-- findOptimalDownPaymentForROI (src/utils/purchaseCalculations.ts,
    lines 325-407): maxROI starts at -Infinity (⊥) and optimalDownPayment at
    minDownPayment. -/
def findOptimalDownPaymentForROI
    (productPrice currentSavings loanInterestRate : ℚ) (loanTermMonths : ℕ)
    (investmentReturn projectedYears monthlyInvestmentCapacity : ℚ)
    (minDownPayment maxDownPayment : ℚ) : ROISweepResult :=
  let out :=
    sweepLoop productPrice currentSavings loanInterestRate loanTermMonths
      investmentReturn projectedYears monthlyInvestmentCapacity
      (sweepList minDownPayment maxDownPayment) ⊥ minDownPayment
  ⟨out.2.1, out.1, out.2.2⟩

/-- The roi value the sweep records for a candidate percentage: the computed
    ROI when the down payment is affordable, -Infinity (⊥) otherwise. -/
def sweepROI (productPrice currentSavings loanInterestRate : ℚ) (loanTermMonths : ℕ)
    (investmentReturn projectedYears monthlyInvestmentCapacity : ℚ) (dp : ℚ) :
    WithBot ℚ :=
  if productPrice * (dp / 100) ≤ currentSavings then
    ((calculateROIForDownPayment productPrice currentSavings dp loanInterestRate
        loanTermMonths investmentReturn projectedYears monthlyInvestmentCapacity).1 :
      WithBot ℚ)
  else ⊥

/-- The analysis entry the sweep records for a candidate percentage; an entry
    does not depend on the running maximum, only on its own percentage. -/
def sweepEntry (productPrice currentSavings loanInterestRate : ℚ) (loanTermMonths : ℕ)
    (investmentReturn projectedYears monthlyInvestmentCapacity : ℚ) (dp : ℚ) : ROIEntry :=
  if productPrice * (dp / 100) ≤ currentSavings then
    let r :=
      calculateROIForDownPayment productPrice currentSavings dp loanInterestRate
        loanTermMonths investmentReturn projectedYears monthlyInvestmentCapacity
    ⟨dp, (r.1 : WithBot ℚ), r.2.finalAssets, r.2.totalCost, r.2.monthlyPayment, true⟩
  else ⟨dp, ⊥, 0, 0, 0, false⟩

/-- Claim C1 counterexample: with currentAmount 0 < targetAmount 100 and
    monthlyInvestment 0 ≤ 0, the period solver does NOT return the finite
    ceiling sentinel 1200 — it returns the unbounded marker (Infinity). -/
theorem claim_C1_counterexample :
    ¬ (calculateInvestmentPeriod 0 100 0 (5/100) = (1200 : ℕ∞)) := by
  decide

/-- Claim C1 (amended): for every input with currentAmount < targetAmount and
    monthlyInvestment ≤ 0, calculateInvestmentPeriod returns the unbounded
    marker ⊤ (JavaScript Infinity), the distinguished value signaling
    "never", which is distinct from the finite 1200-period ceiling. -/
theorem claim_C1_amended (c t m r : ℚ) (hct : c < t) (hm : m ≤ 0) :
    calculateInvestmentPeriod c t m r = ⊤ := by
  unfold calculateInvestmentPeriod
  rw [if_neg (by exact not_le.mpr hct), if_pos hm]

/-- Claim C1 witness: the amended theorem applied at a concrete input. -/
theorem claim_C1_witness :
    calculateInvestmentPeriod 0 100 0 (5/100) = ⊤ :=
  claim_C1_amended 0 100 0 (5/100) (by norm_num) (by norm_num)

/-- The bounded period loop performs no more iterations at a higher monthly
    rate: with nonnegative balances and contributions, a higher rate keeps the
    running value pointwise at least as large, so the target is crossed no
    later. -/
theorem periodLoop_anti_rate :
    ∀ (fuel : ℕ) (t m ρ1 ρ2 v1 v2 : ℚ), 0 ≤ ρ1 → ρ1 ≤ ρ2 → 0 ≤ m → 0 ≤ v1 → v1 ≤ v2 →
      periodLoop t ρ2 m fuel v2 ≤ periodLoop t ρ1 m fuel v1 := by
  intro fuel
  induction fuel with
  | zero => intro t m ρ1 ρ2 v1 v2 _ _ _ _ _; simp [periodLoop]
  | succ n ih =>
    intro t m ρ1 ρ2 v1 v2 h1 h12 hm hv1 hv12
    by_cases hv2t : v2 < t
    · have hv1t : v1 < t := lt_of_le_of_lt hv12 hv2t
      simp only [periodLoop, if_pos hv2t, if_pos hv1t]
      have hstep1 : (0:ℚ) ≤ stepValue ρ1 m v1 := by
        unfold stepValue; nlinarith
      have hstep12 : stepValue ρ1 m v1 ≤ stepValue ρ2 m v2 := by
        unfold stepValue; nlinarith
      exact Nat.succ_le_succ (ih t m ρ1 ρ2 _ _ h1 h12 hm hstep1 hstep12)
    · simp only [periodLoop, if_neg hv2t]
      exact Nat.zero_le _

/-- The period solver is antitone in the annual return on positive rates and
    nonnegative starting balances. -/
theorem calculateInvestmentPeriod_anti_rate (c t m r1 r2 : ℚ)
    (h1 : 0 < r1) (h12 : r1 ≤ r2) (hc : 0 ≤ c) :
    calculateInvestmentPeriod c t m r2 ≤ calculateInvestmentPeriod c t m r1 := by
  unfold calculateInvestmentPeriod
  by_cases htc : t ≤ c
  · simp [htc]
  · rw [if_neg htc, if_neg htc]
    by_cases hm : m ≤ 0
    · simp [hm]
    · rw [if_neg hm, if_neg hm]
      have h2 : 0 < r2 := lt_of_lt_of_le h1 h12
      have hρ1 : ¬ (r1 / 12 = (0:ℚ)) := by positivity
      have hρ2 : ¬ (r2 / 12 = (0:ℚ)) := by positivity
      simp only [hρ1, hρ2, if_neg, ite_false]
      rw [Nat.cast_le]
      exact periodLoop_anti_rate 1200 t m (r1/12) (r2/12) c c
        (by positivity) (by linarith) (le_of_not_le hm) hc le_rfl

/-- Both branches of scenarioFinalize carry the band's annual return through
    unchanged. -/
theorem scenarioFinalize_annualReturn (c t m r : ℚ) :
    (scenarioFinalize c t m r).annualReturn = r := by
  simp only [scenarioFinalize]
  split <;> rfl

/-- Both branches of scenarioFinalize report the solver's period count. -/
theorem scenarioFinalize_projectedMonths (c t m r : ℚ) :
    (scenarioFinalize c t m r).projectedMonths =
      calculateInvestmentPeriod c t m r := by
  simp only [scenarioFinalize]
  split <;> rfl

/-- Claim C2 counterexample: at expectedReturn 0 (below the 0.01 conservative
    floor) the bands are not ordered: the conservative band's annual return,
    max(0.01, 0 - 0.15) = 0.01, strictly exceeds the expected band's 0. -/
theorem claim_C2_counterexample :
    ¬ ((calculateInvestmentScenarios 0 100 10 0).conservative.annualReturn ≤
       (calculateInvestmentScenarios 0 100 10 0).expected.annualReturn) := by
  simp only [calculateInvestmentScenarios]
  rw [scenarioFinalize_annualReturn, scenarioFinalize_annualReturn]
  norm_num

/-- Claim C2 (amended): for every currentAmount ≥ 0 and every expectedReturn
    at or above the 0.01 conservative floor (and every targetAmount and
    monthlyInvestment), the scenario bands satisfy
    conservativeReturn ≤ expectedReturn ≤ optimisticReturn and correspondingly
    conservative.projectedMonths ≥ expected.projectedMonths ≥
    optimistic.projectedMonths (higher return gives faster or equal
    completion). -/
theorem claim_C2_amended (c t m er : ℚ) (hc : 0 ≤ c) (her : 1/100 ≤ er) :
    (calculateInvestmentScenarios c t m er).conservative.annualReturn ≤
      (calculateInvestmentScenarios c t m er).expected.annualReturn ∧
    (calculateInvestmentScenarios c t m er).expected.annualReturn ≤
      (calculateInvestmentScenarios c t m er).optimistic.annualReturn ∧
    (calculateInvestmentScenarios c t m er).expected.projectedMonths ≤
      (calculateInvestmentScenarios c t m er).conservative.projectedMonths ∧
    (calculateInvestmentScenarios c t m er).optimistic.projectedMonths ≤
      (calculateInvestmentScenarios c t m er).expected.projectedMonths := by
  simp only [calculateInvestmentScenarios, scenarioFinalize_annualReturn,
    scenarioFinalize_projectedMonths]
  have hcons_le : max (1/100 : ℚ) (er - 15/100) ≤ er := by
    apply max_le her; linarith
  have hcons_pos : (0:ℚ) < max (1/100 : ℚ) (er - 15/100) :=
    lt_of_lt_of_le (by norm_num) (le_max_left _ _)
  refine ⟨hcons_le, by linarith, ?_, ?_⟩
  · exact calculateInvestmentPeriod_anti_rate c t m _ er hcons_pos hcons_le hc
  · exact calculateInvestmentPeriod_anti_rate c t m er _ (by linarith) (by linarith) hc

/-- Claim C2 witness: the amended theorem applied at a concrete input. -/
theorem claim_C2_witness :
    (calculateInvestmentScenarios 0 100 10 (5/100)).conservative.annualReturn ≤
      (calculateInvestmentScenarios 0 100 10 (5/100)).expected.annualReturn ∧
    (calculateInvestmentScenarios 0 100 10 (5/100)).expected.annualReturn ≤
      (calculateInvestmentScenarios 0 100 10 (5/100)).optimistic.annualReturn ∧
    (calculateInvestmentScenarios 0 100 10 (5/100)).expected.projectedMonths ≤
      (calculateInvestmentScenarios 0 100 10 (5/100)).conservative.projectedMonths ∧
    (calculateInvestmentScenarios 0 100 10 (5/100)).optimistic.projectedMonths ≤
      (calculateInvestmentScenarios 0 100 10 (5/100)).expected.projectedMonths :=
  claim_C2_amended 0 100 10 (5/100) (by norm_num) (by norm_num)

/-- Advancing the start by one step shifts the index of the recurrence. -/
theorem simValue_shift (c ρ m : ℚ) (n : ℕ) :
    simValue c ρ m (n + 1) = simValue (stepValue ρ m c) ρ m n := by
  induction n with
  | zero => rfl
  | succ k ih =>
    rw [simValue, ih]
    rfl

/-- Closed form of the recurrence at a nonzero monthly rate. -/
theorem simValue_closed (c ρ m : ℚ) (hρ : ρ ≠ 0) (n : ℕ) :
    simValue c ρ m n = (c + m / ρ) * (1 + ρ) ^ n - m / ρ := by
  induction n with
  | zero => simp [simValue]
  | succ k ih =>
    rw [simValue, stepValue, ih]
    field_simp
    ring

/-- The recurrence preserves nonnegativity for nonnegative data. -/
theorem simValue_nonneg (c ρ m : ℚ) (hc : 0 ≤ c) (hρ : 0 ≤ ρ) (hm : 0 ≤ m) (n : ℕ) :
    0 ≤ simValue c ρ m n := by
  induction n with
  | zero => exact hc
  | succ k ih =>
    rw [simValue, stepValue]
    nlinarith

/-- The recurrence is monotone in the period index for nonnegative data. -/
theorem simValue_mono (c ρ m : ℚ) (hc : 0 ≤ c) (hρ : 0 ≤ ρ) (hm : 0 ≤ m) :
    Monotone (simValue c ρ m) := by
  apply monotone_nat_of_le_succ
  intro n
  have hv := simValue_nonneg c ρ m hc hρ hm n
  rw [simValue, stepValue]
  nlinarith

/-- The bounded period loop returns exactly the first crossing index when the
    crossing happens within the fuel budget. -/
theorem periodLoop_eq_first_cross (t ρ m : ℚ) :
    ∀ (n : ℕ) (fuel : ℕ) (v : ℚ), n ≤ fuel →
      (∀ k, k < n → simValue v ρ m k < t) → t ≤ simValue v ρ m n →
      periodLoop t ρ m fuel v = n := by
  intro n
  induction n with
  | zero =>
    intro fuel v _ _ hcross
    have hv : ¬ (v < t) := not_lt.mpr hcross
    cases fuel with
    | zero => rfl
    | succ f => simp [periodLoop, hv]
  | succ n ih =>
    intro fuel v hle hlt hcross
    obtain ⟨f, rfl⟩ : ∃ f, fuel = f + 1 := ⟨fuel - 1, by omega⟩
    have hv : v < t := by
      have h0 := hlt 0 (Nat.succ_pos n)
      simpa [simValue] using h0
    rw [periodLoop, if_pos hv]
    have hrec : periodLoop t ρ m f (stepValue ρ m v) = n := by
      apply ih f (stepValue ρ m v) (by omega)
      · intro k hk
        have := hlt (k + 1) (by omega)
        rwa [simValue_shift] at this
      · rwa [simValue_shift] at hcross
    omega

/-- Lower bound transfer for JavaScript rounding. -/
theorem le_jsRound (z : ℤ) (q : ℚ) (h : (z:ℚ) ≤ q) : z ≤ jsRound q := by
  unfold jsRound
  exact Int.le_floor.mpr (by linarith)

/-- Upper bound transfer for JavaScript rounding. -/
theorem jsRound_lt (q : ℚ) (z : ℤ) (h : q + 1/2 < (z:ℚ)) : jsRound q < z := by
  unfold jsRound
  exact Int.floor_lt.mpr (by linarith)

/-- The trajectory loop never emits more points than its fuel budget. -/
theorem simLoop_length_le (t ρ m : ℚ) :
    ∀ (fuel month : ℕ) (v cumInvest cumReturns : ℚ),
      (simLoop t ρ m fuel month v cumInvest cumReturns).length ≤ fuel := by
  intro fuel
  induction fuel with
  | zero => intro month v ci cr; simp [simLoop]
  | succ f ih =>
    intro month v ci cr
    simp only [simLoop]
    split
    · simp
    · simpa using Nat.succ_le_succ (ih (month + 1) _ _ _)

/-- Every emitted point except the last has a running value strictly below the
    target: the loop stops at the first crossing. -/
theorem simLoop_early_stop (t ρ m : ℚ) :
    ∀ (fuel month : ℕ) (v cumInvest cumReturns : ℚ) (k : ℕ),
      k + 1 < (simLoop t ρ m fuel month v cumInvest cumReturns).length →
      simValue v ρ m (k + 1) < t := by
  intro fuel
  induction fuel with
  | zero => intro month v ci cr k h; simp [simLoop] at h
  | succ f ih =>
    intro month v ci cr k h
    simp only [simLoop] at h
    by_cases hc : t ≤ v * (1 + ρ) + m
    · rw [if_pos hc] at h
      simp at h
    · rw [if_neg hc] at h
      simp only [List.length_cons] at h
      cases k with
      | zero =>
        have h1 : simValue v ρ m 1 = v * (1 + ρ) + m := by
          simp [simValue, stepValue]
        rw [h1]
        exact not_le.mp hc
      | succ j =>
        have hj := ih (month + 1) (v * (1 + ρ) + m) (ci + m) (cr + v * ρ) j (by omega)
        rw [simValue_shift]
        simpa [stepValue] using hj

/-- Full characterization of the trajectory when the first crossing happens at
    index n within the fuel budget: exactly n points are emitted, numbered
    month, month+1, ..., and the j-th point's totalValue rounds the running
    value after j+1 steps. -/
theorem simLoop_char (t ρ m : ℚ) :
    ∀ (n fuel month : ℕ) (v cumInvest cumReturns : ℚ), 1 ≤ n → n ≤ fuel →
      (∀ k, 1 ≤ k → k < n → simValue v ρ m k < t) → t ≤ simValue v ρ m n →
      (simLoop t ρ m fuel month v cumInvest cumReturns).length = n ∧
      (∀ j, j < n →
        ((simLoop t ρ m fuel month v cumInvest cumReturns).getD j
            ⟨0, 0, 0, 0, 0, 0, 0⟩).month = month + j ∧
        ((simLoop t ρ m fuel month v cumInvest cumReturns).getD j
            ⟨0, 0, 0, 0, 0, 0, 0⟩).totalValue = jsRound (simValue v ρ m (j + 1))) := by
  intro n
  induction n with
  | zero => intro fuel month v ci cr h1; omega
  | succ n ih =>
    intro fuel month v ci cr h1 hle hlt hcross
    obtain ⟨f, rfl⟩ : ∃ f, fuel = f + 1 := ⟨fuel - 1, by omega⟩
    have hstep1 : simValue v ρ m 1 = v * (1 + ρ) + m := by
      simp [simValue, stepValue]
    simp only [simLoop]
    by_cases hn : n = 0
    · subst hn
      have hc : t ≤ v * (1 + ρ) + m := by rw [← hstep1]; exact hcross
      rw [if_pos hc]
      refine ⟨rfl, ?_⟩
      intro j hj
      have hj0 : j = 0 := by omega
      subst hj0
      exact ⟨by simp, by simp [hstep1]⟩
    · have hv1 : simValue v ρ m 1 < t := hlt 1 le_rfl (by omega)
      have hc : ¬ (t ≤ v * (1 + ρ) + m) := by rw [← hstep1]; exact not_le.mpr hv1
      rw [if_neg hc]
      have hshift : ∀ k, simValue (v * (1 + ρ) + m) ρ m k = simValue v ρ m (k + 1) := by
        intro k
        rw [simValue_shift]
        rfl
      have hrest := ih f (month + 1) (v * (1 + ρ) + m) (ci + m) (cr + v * ρ)
        (by omega) (by omega)
        (by intro k hk1 hk2; rw [hshift]; exact hlt (k + 1) (by omega) (by omega))
        (by rw [hshift]; exact hcross)
      refine ⟨by simpa using hrest.1, ?_⟩
      intro j hj
      cases j with
      | zero => exact ⟨by simp, by simp [hstep1]⟩
      | succ i =>
        have hi := hrest.2 i (by omega)
        refine ⟨?_, ?_⟩
        · have := hi.1
          simpa [Nat.add_assoc, Nat.add_comm 1 i] using this
        · have := hi.2
          rw [hshift] at this
          simpa using this

/-- The trajectory list of the simulation record is the bounded loop run with
    fuel min(projectedMonths, 600). -/
theorem calculateInvestmentSimulation_monthlyProjections (c t m r : ℚ) :
    (calculateInvestmentSimulation c t m r).monthlyProjections =
      simLoop t (r / 12) m
        ((min (calculateInvestmentPeriod c t m r) 600).toNat) 1 c 0 0 := rfl

/-- The simulation record reports the solver's period count unchanged. -/
theorem calculateInvestmentSimulation_projectedMonths (c t m r : ℚ) :
    (calculateInvestmentSimulation c t m r).projectedMonths =
      calculateInvestmentPeriod c t m r := rfl

/-- Claim C8: the simulation trajectory never exceeds 600 points and stops at
    the first month whose running total meets the target (every non-final
    point is strictly below target); concretely, for target 5,000,000, current
    500,000, monthly 50,000 and 5% return, the solver reports 74 months, the
    trajectory has exactly 74 points, the reported totalValue at month 74 is at
    least the target and at month 73 is strictly below it. -/
theorem claim_C8 :
    (∀ c t m r : ℚ,
      (calculateInvestmentSimulation c t m r).monthlyProjections.length ≤ 600) ∧
    (∀ (c t m r : ℚ) (k : ℕ),
      k + 1 < (calculateInvestmentSimulation c t m r).monthlyProjections.length →
      simValue c (r / 12) m (k + 1) < t) ∧
    (calculateInvestmentSimulation 500000 5000000 50000 (5/100)).projectedMonths =
      ((74 : ℕ) : ℕ∞) ∧
    (calculateInvestmentSimulation 500000 5000000 50000
      (5/100)).monthlyProjections.length = 74 ∧
    (5000000 : ℤ) ≤
      ((calculateInvestmentSimulation 500000 5000000 50000
          (5/100)).monthlyProjections.getD 73 ⟨0, 0, 0, 0, 0, 0, 0⟩).totalValue ∧
    ((calculateInvestmentSimulation 500000 5000000 50000
        (5/100)).monthlyProjections.getD 72 ⟨0, 0, 0, 0, 0, 0, 0⟩).totalValue <
      5000000 := by
  have h73 : simValue 500000 ((5/100)/12) 50000 73 < 9999999/2 := by
    rw [simValue_closed _ _ _ (by norm_num)]
    norm_num
  have h74 : (5000000:ℚ) ≤ simValue 500000 ((5/100)/12) 50000 74 := by
    rw [simValue_closed _ _ _ (by norm_num)]
    norm_num
  have hlt : ∀ k, k < 74 → simValue 500000 ((5/100)/12) 50000 k < 5000000 := by
    intro k hk
    have hmono := simValue_mono 500000 ((5/100)/12) 50000
      (by norm_num) (by norm_num) (by norm_num) (show k ≤ 73 by omega)
    linarith
  have hloop : periodLoop 5000000 ((5/100)/12) 50000 1200 500000 = 74 :=
    periodLoop_eq_first_cross 5000000 ((5/100)/12) 50000 74 1200 500000
      (by norm_num) (fun k hk => hlt k hk) h74
  have hpm : calculateInvestmentPeriod 500000 5000000 50000 (5/100) = ((74:ℕ) : ℕ∞) := by
    have hbranch : calculateInvestmentPeriod 500000 5000000 50000 (5/100) =
        ((periodLoop 5000000 ((5/100)/12) 50000 1200 500000 : ℕ) : ℕ∞) := by
      unfold calculateInvestmentPeriod
      norm_num
    rw [hbranch, hloop]
  have hfuel : (min (calculateInvestmentPeriod 500000 5000000 50000 (5/100)) 600).toNat
      = 74 := by
    rw [hpm]
    decide
  have hchar := simLoop_char 5000000 ((5/100)/12) 50000 74 74 1 500000 0 0
    (by norm_num) le_rfl (fun k _ hk => hlt k hk) h74
  refine ⟨?_, ?_, ?_, ?_, ?_, ?_⟩
  · intro c t m r
    rw [calculateInvestmentSimulation_monthlyProjections]
    refine le_trans (simLoop_length_le t (r/12) m _ 1 c 0 0) ?_
    have hmin : min (calculateInvestmentPeriod c t m r) 600 ≤ ((600:ℕ) : ℕ∞) := by
      simpa using min_le_right (calculateInvestmentPeriod c t m r) 600
    exact ENat.toNat_le_of_le_coe hmin
  · intro c t m r k hk
    rw [calculateInvestmentSimulation_monthlyProjections] at hk
    exact simLoop_early_stop t (r/12) m _ 1 c 0 0 k hk
  · rw [calculateInvestmentSimulation_projectedMonths, hpm]
  · rw [calculateInvestmentSimulation_monthlyProjections, hfuel]
    exact hchar.1
  · rw [calculateInvestmentSimulation_monthlyProjections, hfuel]
    rw [(hchar.2 73 (by norm_num)).2]
    exact le_jsRound 5000000 _ (by push_cast; linarith)
  · rw [calculateInvestmentSimulation_monthlyProjections, hfuel]
    rw [(hchar.2 72 (by norm_num)).2]
    exact jsRound_lt _ 5000000 (by push_cast; linarith)

/-- Claim C8 witness: the early-stop conjunct of the theorem applied at the
    concrete scenario and first month, with its hypothesis discharged by the
    theorem's own length conjunct. -/
theorem claim_C8_witness :
    simValue 500000 ((5/100)/12) 50000 (0 + 1) < 5000000 :=
  claim_C8.2.1 500000 5000000 50000 (5/100) 0 (by
    have hlen := claim_C8.2.2.2.1
    rw [hlen]
    norm_num)

/-- Specification of a finalized scenario band: at or above the 1200-period
    ceiling it degrades to the bare target with zero returns, below it it
    replays the recurrence for the solved period count. -/
theorem scenarioFinalize_spec (c t m r : ℚ) :
    (¬ (scenarioFinalize c t m r).projectedMonths < 1200 →
      (scenarioFinalize c t m r).totalValue = t ∧
      (scenarioFinalize c t m r).totalReturns = 0) ∧
    ((scenarioFinalize c t m r).projectedMonths < 1200 →
      (scenarioFinalize c t m r).totalValue =
        (jsRound (simValue c ((scenarioFinalize c t m r).annualReturn / 12) m
          (scenarioFinalize c t m r).projectedMonths.toNat) : ℚ) ∧
      (scenarioFinalize c t m r).totalReturns =
        (jsRound (simValue c ((scenarioFinalize c t m r).annualReturn / 12) m
          (scenarioFinalize c t m r).projectedMonths.toNat - c -
          m * ((scenarioFinalize c t m r).projectedMonths.toNat : ℚ)) : ℚ)) := by
  simp only [scenarioFinalize]
  split
  case isTrue h =>
    exact ⟨fun hn => absurd h hn, fun _ => ⟨rfl, rfl⟩⟩
  case isFalse h =>
    exact ⟨fun _ => ⟨rfl, rfl⟩, fun hy => absurd hy h⟩

/-- Claim C9: in calculateInvestmentScenarios, every band whose solved period
    count reaches the 1200-period ceiling (including the unbounded "never"
    marker) reports totalValue equal to the bare targetAmount and totalReturns
    equal to 0, while a band solved strictly below the ceiling reports the
    rounded value of replaying the recurrence for projectedMonths steps and
    totalReturns = totalValue' - currentAmount - monthlyInvestment *
    projectedMonths (rounded, before rounding the value). -/
theorem claim_C9 (c t m er : ℚ) (b : InvestmentScenario)
    (hb : b = (calculateInvestmentScenarios c t m er).conservative ∨
          b = (calculateInvestmentScenarios c t m er).expected ∨
          b = (calculateInvestmentScenarios c t m er).optimistic) :
    (¬ b.projectedMonths < 1200 → b.totalValue = t ∧ b.totalReturns = 0) ∧
    (b.projectedMonths < 1200 →
      b.totalValue =
        (jsRound (simValue c (b.annualReturn / 12) m b.projectedMonths.toNat) : ℚ) ∧
      b.totalReturns =
        (jsRound (simValue c (b.annualReturn / 12) m b.projectedMonths.toNat - c -
          m * (b.projectedMonths.toNat : ℚ)) : ℚ)) := by
  rcases hb with hb | hb | hb <;>
    rw [hb] <;>
    simp only [calculateInvestmentScenarios] <;>
    exact scenarioFinalize_spec c t m _

/-- Claim C9 witness: the expected band at rate 0 for target 100, current 0,
    monthly 10 solves in 10 < 1200 months, so the theorem's replay branch
    applies at that concrete input. -/
theorem claim_C9_witness :
    (calculateInvestmentScenarios 0 100 10 0).expected.totalValue =
      (jsRound (simValue 0 ((calculateInvestmentScenarios 0 100 10 0).expected.annualReturn / 12)
        10 (calculateInvestmentScenarios 0 100 10 0).expected.projectedMonths.toNat) : ℚ) := by
  have hpm : (calculateInvestmentScenarios 0 100 10 0).expected.projectedMonths < 1200 := by
    have hexp : (calculateInvestmentScenarios 0 100 10 0).expected =
        scenarioFinalize 0 100 10 0 := rfl
    rw [hexp, scenarioFinalize_projectedMonths]
    unfold calculateInvestmentPeriod
    norm_num
  exact ((claim_C9 0 100 10 0 _ (Or.inr (Or.inl rfl))).2 hpm).1

/-- The opportunity loop emits one point per month of fuel, never breaking
    early. -/
theorem oppLoop_length (ρ m : ℚ) :
    ∀ (fuel month : ℕ) (v : ℚ), (oppLoop ρ m fuel month v).length = fuel := by
  intro fuel
  induction fuel with
  | zero => intro month v; rfl
  | succ f ih =>
    intro month v
    simp only [oppLoop, List.length_cons]
    rw [ih]

/-- Each emitted opportunity point carries its month index and rounds the
    running value after that many steps into both investmentValue and
    netWorth. -/
theorem oppLoop_getD (ρ m : ℚ) :
    ∀ (fuel k month : ℕ) (v : ℚ), k < fuel →
      (oppLoop ρ m fuel month v).getD k ⟨0, 0, 0, 0, none, none⟩ =
        ⟨month + k, m, jsRound (simValue v ρ m (k + 1)),
          jsRound (simValue v ρ m (k + 1)), none, none⟩ := by
  intro fuel
  induction fuel with
  | zero => intro k month v hk; omega
  | succ f ih =>
    intro k month v hk
    have hstep1 : simValue v ρ m 1 = v * (1 + ρ) + m := by
      simp [simValue, stepValue]
    cases k with
    | zero =>
      simp only [oppLoop, List.getD_cons_zero]
      rw [hstep1]
      simp
    | succ j =>
      simp only [oppLoop, List.getD_cons_succ]
      rw [ih j (month + 1) (v * (1 + ρ) + m) (by omega)]
      have hshift : simValue (v * (1 + ρ) + m) ρ m (j + 1) = simValue v ρ m (j + 2) :=
        (simValue_shift v ρ m (j + 1)).symm
      rw [hshift]
      have hmonth : month + 1 + j = month + (j + 1) := by omega
      rw [hmonth]

/-- Claim C10: calculateOpportunityAnalysis returns exactly `months` points
    numbered 1..months (no early termination on any threshold), and in the base
    pre-loan-overlay analysis each point's netWorth equals its rounded
    investmentValue. -/
theorem claim_C10 (i m r : ℚ) (months : ℕ) :
    (calculateOpportunityAnalysis i m r months).monthlyProjections.length = months ∧
    (∀ k, k < months →
      ((calculateOpportunityAnalysis i m r months).monthlyProjections.getD k
          ⟨0, 0, 0, 0, none, none⟩).month = k + 1 ∧
      ((calculateOpportunityAnalysis i m r months).monthlyProjections.getD k
          ⟨0, 0, 0, 0, none, none⟩).netWorth =
        ((calculateOpportunityAnalysis i m r months).monthlyProjections.getD k
          ⟨0, 0, 0, 0, none, none⟩).investmentValue) := by
  have hproj : (calculateOpportunityAnalysis i m r months).monthlyProjections =
      oppLoop (r / 12) m months 1 i := rfl
  rw [hproj]
  refine ⟨oppLoop_length (r / 12) m months 1 i, ?_⟩
  intro k hk
  rw [oppLoop_getD (r / 12) m months k 1 i hk]
  constructor
  · show 1 + k = k + 1
    omega
  · rfl

/-- Claim C10 witness: the theorem applied at a concrete horizon of 2 months,
    inspecting the second point. -/
theorem claim_C10_witness :
    (calculateOpportunityAnalysis 100 10 0 2).monthlyProjections.length = 2 ∧
    ((calculateOpportunityAnalysis 100 10 0 2).monthlyProjections.getD 1
        ⟨0, 0, 0, 0, none, none⟩).month = 2 ∧
    ((calculateOpportunityAnalysis 100 10 0 2).monthlyProjections.getD 1
        ⟨0, 0, 0, 0, none, none⟩).netWorth =
      ((calculateOpportunityAnalysis 100 10 0 2).monthlyProjections.getD 1
        ⟨0, 0, 0, 0, none, none⟩).investmentValue :=
  ⟨(claim_C10 100 10 0 2).1,
   ((claim_C10 100 10 0 2).2 1 (by norm_num)).1,
   ((claim_C10 100 10 0 2).2 1 (by norm_num)).2⟩

/-- Claim C3: calculatePurchaseSimulation recommends lump_sum exactly when
    lumpSumScenario.finalAssets - (loanScenario.finalAssets -
    (loanScenario.totalCost - productPrice)) is strictly positive; a zero or
    negative signed difference recommends loan (tie-break toward financing);
    and totalDifference is the rounded absolute value of that signed
    difference. -/
theorem claim_C3
    (price savings dp rate : ℚ) (term : ℕ) (ir years cap : ℚ) (d : ℚ)
    (hd : d =
      ((calculatePurchaseSimulation price savings dp rate term ir years
          cap).lumpSumScenario.finalAssets : ℚ) -
        (((calculatePurchaseSimulation price savings dp rate term ir years
            cap).loanScenario.finalAssets : ℚ) -
          (((calculatePurchaseSimulation price savings dp rate term ir years
              cap).loanScenario.totalCost : ℚ) - price))) :
    ((calculatePurchaseSimulation price savings dp rate term ir years
        cap).recommendation = PaymentMethod.lump_sum ↔ 0 < d) ∧
    (d ≤ 0 → (calculatePurchaseSimulation price savings dp rate term ir years
        cap).recommendation = PaymentMethod.loan) ∧
    (calculatePurchaseSimulation price savings dp rate term ir years
        cap).totalDifference = jsRound |d| := by
  have hrec : (calculatePurchaseSimulation price savings dp rate term ir years
      cap).recommendation =
      (if 0 < d then PaymentMethod.lump_sum else PaymentMethod.loan) := by
    rw [hd]
    rfl
  have htd : (calculatePurchaseSimulation price savings dp rate term ir years
      cap).totalDifference = jsRound |d| := by
    rw [hd]
    rfl
  refine ⟨?_, ?_, htd⟩
  · rw [hrec]
    by_cases h : 0 < d
    · simp [h]
    · simp [h]
  · intro hle
    rw [hrec, if_neg (not_lt.mpr hle)]

/-- Claim C3 witness: the rounded-absolute-difference conjunct of the theorem
    at a concrete input, with the definitional hypothesis discharged by rfl. -/
theorem claim_C3_witness :
    (calculatePurchaseSimulation 100 0 0 0 12 0 0 0).totalDifference =
      jsRound |((calculatePurchaseSimulation 100 0 0 0 12 0 0
          0).lumpSumScenario.finalAssets : ℚ) -
        (((calculatePurchaseSimulation 100 0 0 0 12 0 0
            0).loanScenario.finalAssets : ℚ) -
          (((calculatePurchaseSimulation 100 0 0 0 12 0 0
              0).loanScenario.totalCost : ℚ) - 100))| :=
  (claim_C3 100 0 0 0 12 0 0 0 _ rfl).2.2

/-- Claim C7 counterexample: the exact level payment for principal 1000,
    annual rate 0.12, 12 months differs from 88.8488 by more than 1e-6 (the
    exact value is 88.8487886783...). -/
theorem claim_C7_counterexample :
    ¬ (|calculateMonthlyLoanPayment 1000 (12/100) 12 - 888488/10000| ≤ 1/1000000) := by
  rw [not_le]
  have hlt : calculateMonthlyLoanPayment 1000 (12/100) 12 < 888488/10000 - 1/1000000 := by
    unfold calculateMonthlyLoanPayment
    norm_num
  calc (1:ℚ)/1000000
      < 888488/10000 - calculateMonthlyLoanPayment 1000 (12/100) 12 := by linarith
    _ ≤ |calculateMonthlyLoanPayment 1000 (12/100) 12 - 888488/10000| := by
        rw [abs_sub_comm]
        exact le_abs_self _

/-- Claim C7 (amended): calculateMonthlyLoanPayment(principal, 0, n) equals
    principal / n for every n ≥ 1; calculateMonthlyLoanPayment(1200, 0, 12)
    equals 100; calculateMonthlyLoanPayment(1000, 0.12, 12) equals 88.8488 to
    within 2e-5 (not 1e-6: the exact value is about 88.848789);
    calculateROI(1000, 1000, 1000) = 0 and calculateROI(1000, 1100, 1000) =
    10. -/
theorem claim_C7_amended :
    (∀ (p : ℚ) (n : ℕ), 1 ≤ n → calculateMonthlyLoanPayment p 0 n = p / n) ∧
    |calculateMonthlyLoanPayment 1000 (12/100) 12 - 888488/10000| ≤ 2/100000 ∧
    calculateMonthlyLoanPayment 1200 0 12 = 100 ∧
    calculateROI 1000 1000 1000 = 0 ∧
    calculateROI 1000 1100 1000 = 10 := by
  refine ⟨?_, ?_, ?_, ?_, ?_⟩
  · intro p n hn
    unfold calculateMonthlyLoanPayment
    rw [if_pos rfl]
  · have h1 : 888488/10000 - 2/100000 ≤ calculateMonthlyLoanPayment 1000 (12/100) 12 := by
      unfold calculateMonthlyLoanPayment
      norm_num
    have h2 : calculateMonthlyLoanPayment 1000 (12/100) 12 ≤ 888488/10000 := by
      unfold calculateMonthlyLoanPayment
      norm_num
    rw [abs_le]
    constructor <;> linarith
  · unfold calculateMonthlyLoanPayment
    norm_num
  · unfold calculateROI
    norm_num
  · unfold calculateROI
    norm_num

/-- Claim C7 witness: the zero-rate conjunct applied at principal 1200 over
    12 months. -/
theorem claim_C7_witness :
    (1:ℕ) ≤ 12 ∧ calculateMonthlyLoanPayment 1200 0 12 = 1200 / ((12:ℕ) : ℚ) :=
  ⟨by norm_num, claim_C7_amended.1 1200 12 (by norm_num)⟩

/-- Geometric growth bound: the accumulated factor never exceeds n times the
    per-period rate times the final factor. -/
theorem pow_sub_one_le (ρ : ℚ) (hρ : 0 ≤ ρ) :
    ∀ n : ℕ, (1 + ρ) ^ n - 1 ≤ (n : ℚ) * ρ * (1 + ρ) ^ n := by
  intro n
  induction n with
  | zero => simp
  | succ k ih =>
    have h1ρ : (0:ℚ) ≤ 1 + ρ := by linarith
    have hone : (1:ℚ) ≤ (1 + ρ) ^ (k + 1) := one_le_pow₀ (by linarith)
    calc (1 + ρ) ^ (k + 1) - 1
        = ((1 + ρ) ^ k - 1) * (1 + ρ) + ρ := by rw [pow_succ]; ring
      _ ≤ ((k : ℚ) * ρ * (1 + ρ) ^ k) * (1 + ρ) + ρ :=
          add_le_add_right (mul_le_mul_of_nonneg_right ih h1ρ) ρ
      _ = (k : ℚ) * ρ * (1 + ρ) ^ (k + 1) + ρ := by rw [pow_succ]; ring
      _ ≤ (k : ℚ) * ρ * (1 + ρ) ^ (k + 1) + ρ * (1 + ρ) ^ (k + 1) := by nlinarith
      _ = ((k : ℚ) + 1) * ρ * (1 + ρ) ^ (k + 1) := by ring
      _ = ((k + 1 : ℕ) : ℚ) * ρ * (1 + ρ) ^ (k + 1) := by push_cast; ring

/-- At a positive rate the level payments total at least the principal. -/
theorem levelPayment_total_ge (L rate : ℚ) (term : ℕ)
    (hL : 0 ≤ L) (hr : 0 < rate) (ht : 1 ≤ term) :
    L ≤ calculateMonthlyLoanPayment L rate term * term := by
  unfold calculateMonthlyLoanPayment
  rw [if_neg hr.ne']
  have hρ : 0 < rate / 12 := by positivity
  have hF1 : 1 < (1 + rate / 12) ^ term := one_lt_pow₀ (by linarith) (by omega)
  have hkey := pow_sub_one_le (rate / 12) (le_of_lt hρ) term
  rw [div_mul_eq_mul_div, le_div_iff (by linarith)]
  have hFpos : (0:ℚ) < (1 + rate / 12) ^ term := by linarith
  calc L * ((1 + rate / 12) ^ term - 1)
      ≤ L * ((term : ℚ) * (rate / 12) * (1 + rate / 12) ^ term) :=
        mul_le_mul_of_nonneg_left hkey hL
    _ = L * (rate / 12 * (1 + rate / 12) ^ term) * (term : ℚ) := by ring

/-- The loan scenario's reported totalCost is the rounded sum of the price and
    the raw total interest. -/
theorem calculateLoanScenario_totalCost
    (price savings dp rate : ℚ) (term : ℕ) (ir years addl : ℚ) :
    (calculateLoanScenario price savings dp rate term ir years addl).totalCost =
      jsRound (price +
        (calculateMonthlyLoanPayment (price - price * (dp / 100)) rate term * term -
          (price - price * (dp / 100)))) := rfl

/-- Claim C6 counterexample: at the non-integer price 100.4 with a 100% down
    payment and positive rate 0.12, the financed branch has zero interest and
    the reported totalCost rounds to 100, strictly below the price. -/
theorem claim_C6_counterexample :
    ¬ ((502/5 : ℚ) ≤
        ((calculateLoanScenario (502/5) 0 100 (12/100) 12 0 0 0).totalCost : ℚ)) := by
  rw [calculateLoanScenario_totalCost]
  rw [show (502/5 : ℚ) - 502/5 * (100/100) = 0 from by norm_num]
  have hpay : calculateMonthlyLoanPayment 0 (12/100) 12 = 0 := by
    unfold calculateMonthlyLoanPayment
    norm_num
  rw [hpay]
  rw [show (0:ℚ) * (12:ℕ) - 0 = 0 from by norm_num]
  unfold jsRound
  norm_num

/-- Claim C6 (amended): for every whole-currency-unit productPrice > 0, down
    payment percentage in [0, 100] and loanTermMonths ≥ 1, the loan scenario's
    reported totalCost is ≥ productPrice whenever the loan interest rate is
    positive, and equals productPrice exactly when the rate is 0.  (For
    fractional prices the final Math.round can drop the reported totalCost
    below the raw price, as the counterexample shows.) -/
theorem claim_C6_amended (priceZ : ℤ) (savings dp rate : ℚ) (term : ℕ)
    (ir years addl : ℚ)
    (hp : 0 < (priceZ : ℚ)) (hdp0 : 0 ≤ dp) (hdp1 : dp ≤ 100) (ht : 1 ≤ term) :
    (0 < rate → priceZ ≤
      (calculateLoanScenario (priceZ : ℚ) savings dp rate term ir years addl).totalCost) ∧
    (rate = 0 →
      (calculateLoanScenario (priceZ : ℚ) savings dp rate term ir years addl).totalCost =
        priceZ) := by
  have hL : 0 ≤ (priceZ : ℚ) - (priceZ : ℚ) * (dp / 100) := by nlinarith
  rw [calculateLoanScenario_totalCost]
  constructor
  · intro hr
    have hint : 0 ≤ calculateMonthlyLoanPayment ((priceZ : ℚ) - (priceZ : ℚ) * (dp / 100))
        rate term * term - ((priceZ : ℚ) - (priceZ : ℚ) * (dp / 100)) := by
      have := levelPayment_total_ge ((priceZ : ℚ) - (priceZ : ℚ) * (dp / 100)) rate term
        hL hr ht
      linarith
    unfold jsRound
    set i := calculateMonthlyLoanPayment ((priceZ : ℚ) - (priceZ : ℚ) * (dp / 100))
      rate term * term - ((priceZ : ℚ) - (priceZ : ℚ) * (dp / 100)) with hidef
    clear_value i
    rw [show (priceZ : ℚ) + i + 1/2 = i + 1/2 + (priceZ : ℚ) from by ring,
      Int.floor_add_int]
    have h0 : 0 ≤ ⌊i + 1/2⌋ := Int.le_floor.mpr (by push_cast; linarith)
    omega
  · intro hr
    subst hr
    have hterm : ((term : ℕ) : ℚ) ≠ 0 := by
      have : (0:ℕ) < term := by omega
      positivity
    have hpay : calculateMonthlyLoanPayment ((priceZ : ℚ) - (priceZ : ℚ) * (dp / 100))
        0 term * term - ((priceZ : ℚ) - (priceZ : ℚ) * (dp / 100)) = 0 := by
      unfold calculateMonthlyLoanPayment
      rw [if_pos rfl]
      field_simp
      ring
    rw [hpay]
    unfold jsRound
    rw [add_zero, add_comm, Int.floor_add_int]
    norm_num

/-- Claim C6 witness: the amended theorem applied at price 1200, zero down
    payment, rate 0.12, 12-month term. -/
theorem claim_C6_witness :
    (0 < (12/100 : ℚ) →
      (1200 : ℤ) ≤ (calculateLoanScenario ((1200 : ℤ) : ℚ) 0 0 (12/100) 12 0 0 0).totalCost) ∧
    ((12/100 : ℚ) = 0 →
      (calculateLoanScenario ((1200 : ℤ) : ℚ) 0 0 (12/100) 12 0 0 0).totalCost = (1200 : ℤ)) :=
  claim_C6_amended 1200 0 0 (12/100) 12 0 0 0
    (by norm_num) (by norm_num) (by norm_num) (by norm_num)

/-- Monotonicity of the 2-decimal reporting rounding. -/
theorem toFixed2_mono (q1 q2 : ℚ) (h : q1 ≤ q2) : toFixed2 q1 ≤ toFixed2 q2 := by
  unfold toFixed2
  have hfl := Int.floor_le_floor (α := ℚ) (show q1 * 100 + 1/2 ≤ q2 * 100 + 1/2 by linarith)
  have h2 : ((⌊q1 * 100 + 1/2⌋ : ℤ) : ℚ) ≤ ((⌊q2 * 100 + 1/2⌋ : ℤ) : ℚ) := by
    exact_mod_cast hfl
  linarith

/-- The 2-decimal rounding of zero is zero. -/
theorem toFixed2_zero : toFixed2 0 = 0 := by
  unfold toFixed2
  norm_num

/-- The amortization schedule has one row per month of fuel. -/
theorem loanLoop_length (pay ρ : ℚ) :
    ∀ (fuel month : ℕ) (b : ℚ), (loanLoop pay ρ fuel month b).1.length = fuel := by
  intro fuel
  induction fuel with
  | zero => intro month b; rfl
  | succ f ih =>
    intro month b
    simp only [loanLoop, List.length_cons]
    rw [ih]

/-- Every row of the amortization schedule reports the same rounded payment. -/
theorem loanLoop_payment (pay ρ : ℚ) :
    ∀ (fuel month : ℕ) (b : ℚ),
      ∀ row ∈ (loanLoop pay ρ fuel month b).1, row.payment = toFixed2 pay := by
  intro fuel
  induction fuel with
  | zero => intro month b row hrow; simp [loanLoop] at hrow
  | succ f ih =>
    intro month b row hrow
    simp only [loanLoop] at hrow
    rcases List.mem_cons.mp hrow with h | h
    · rw [h]
    · exact ih (month + 1) _ row h

/-- Row k of the amortization schedule in terms of the balance recurrence: the
    loop balance evolves as b(1+monthlyRate) - payment, which is the shared
    step recurrence with contribution -payment. -/
theorem loanLoop_getD (pay ρ : ℚ) :
    ∀ (fuel k month : ℕ) (b : ℚ), k < fuel →
      (loanLoop pay ρ fuel month b).1.getD k ⟨0, 0, 0, 0, 0⟩ =
        ⟨month + k, toFixed2 pay,
         toFixed2 (pay - simValue b ρ (-pay) k * ρ),
         toFixed2 (simValue b ρ (-pay) k * ρ),
         toFixed2 (max 0 (simValue b ρ (-pay) (k + 1)))⟩ := by
  intro fuel
  induction fuel with
  | zero => intro k month b hk; omega
  | succ f ih =>
    intro k month b hk
    have hbal1 : b - (pay - b * ρ) = simValue b ρ (-pay) 1 := by
      simp only [simValue, stepValue]
      ring
    cases k with
    | zero =>
      simp only [loanLoop, List.getD_cons_zero]
      rw [hbal1]
      have hb0 : b = simValue b ρ (-pay) 0 := rfl
      constructor
    | succ j =>
      simp only [loanLoop, List.getD_cons_succ]
      rw [hbal1, ih j (month + 1) (simValue b ρ (-pay) 1) (by omega)]
      have hshift : ∀ i : ℕ, simValue (simValue b ρ (-pay) 1) ρ (-pay) i =
          simValue b ρ (-pay) (i + 1) := by
        intro i
        rw [show simValue b ρ (-pay) 1 = stepValue ρ (-pay) b from rfl]
        exact (simValue_shift b ρ (-pay) i).symm
      rw [hshift j, hshift (j + 1)]
      have hmonth : month + 1 + j = month + (j + 1) := by omega
      rw [hmonth]

/-- Closed form of the outstanding balance under the exact level payment: after
    k payments the balance is principal * (F - (1+rho)^k) / (F - 1) where
    F = (1+rho)^n. -/
theorem loanBalance_closed (P ρ : ℚ) (n : ℕ) (hρ : 0 < ρ) (hn : 1 ≤ n) (k : ℕ) :
    simValue P ρ (-(P * (ρ * (1 + ρ) ^ n) / ((1 + ρ) ^ n - 1))) k =
      P * ((1 + ρ) ^ n - (1 + ρ) ^ k) / ((1 + ρ) ^ n - 1) := by
  rw [simValue_closed _ _ _ hρ.ne']
  have hF1 : 1 < (1 + ρ) ^ n := one_lt_pow₀ (by linarith) (by omega)
  have hden : (1 + ρ) ^ n - 1 ≠ 0 := ne_of_gt (by linarith)
  have hρne : ρ ≠ 0 := hρ.ne'
  field_simp
  ring

/-- Claim C4: for every principal > 0, rate > 0 and years ≥ 1, the schedule of
    calculateLoanDetails has years*12 rows, a constant reported payment in
    every row, reported remaining balances that are nonnegative and
    monotonically non-increasing, and a remaining balance of exactly 0 in the
    final row. -/
theorem claim_C4 (P rate : ℚ) (years : ℕ)
    (hP : 0 < P) (hr : 0 < rate) (hy : 1 ≤ years) :
    (calculateLoanDetails P rate years).paymentSchedule.length = years * 12 ∧
    (∀ row ∈ (calculateLoanDetails P rate years).paymentSchedule,
      row.payment = toFixed2 (calculateMonthlyPayment P rate years)) ∧
    (∀ k, 0 ≤ ((calculateLoanDetails P rate years).paymentSchedule.getD k
      ⟨0, 0, 0, 0, 0⟩).remainingBalance) ∧
    (∀ k, k + 1 < years * 12 →
      ((calculateLoanDetails P rate years).paymentSchedule.getD (k + 1)
          ⟨0, 0, 0, 0, 0⟩).remainingBalance ≤
        ((calculateLoanDetails P rate years).paymentSchedule.getD k
          ⟨0, 0, 0, 0, 0⟩).remainingBalance) ∧
    ((calculateLoanDetails P rate years).paymentSchedule.getD (years * 12 - 1)
      ⟨0, 0, 0, 0, 0⟩).remainingBalance = 0 := by
  have hsched : (calculateLoanDetails P rate years).paymentSchedule =
      (loanLoop (calculateMonthlyPayment P rate years) (rate / 12) (years * 12) 1 P).1 := rfl
  have hρ : 0 < rate / 12 := by positivity
  have hN : 1 ≤ years * 12 := by omega
  have hF1 : 1 < (1 + rate / 12) ^ (years * 12) :=
    one_lt_pow₀ (by linarith) (by omega)
  have hpay : calculateMonthlyPayment P rate years =
      P * ((rate / 12) * (1 + rate / 12) ^ (years * 12)) /
        ((1 + rate / 12) ^ (years * 12) - 1) := by
    unfold calculateMonthlyPayment
    rw [if_neg hr.ne']
  have hbal : ∀ k, simValue P (rate / 12) (-(calculateMonthlyPayment P rate years)) k =
      P * ((1 + rate / 12) ^ (years * 12) - (1 + rate / 12) ^ k) /
        ((1 + rate / 12) ^ (years * 12) - 1) := by
    intro k
    rw [hpay]
    exact loanBalance_closed P (rate / 12) (years * 12) hρ hN k
  have hbal_anti : ∀ k : ℕ,
      simValue P (rate / 12) (-(calculateMonthlyPayment P rate years)) (k + 1) ≤
        simValue P (rate / 12) (-(calculateMonthlyPayment P rate years)) k := by
    intro k
    rw [hbal, hbal]
    apply div_le_div_of_nonneg_right _ (by linarith)
    have hpow : (1 + rate / 12) ^ k ≤ (1 + rate / 12) ^ (k + 1) :=
      pow_le_pow_right₀ (by linarith) (by omega)
    nlinarith
  have hbal_nonneg : ∀ k, k ≤ years * 12 →
      0 ≤ simValue P (rate / 12) (-(calculateMonthlyPayment P rate years)) k := by
    intro k hk
    rw [hbal]
    have hpow : (1 + rate / 12) ^ k ≤ (1 + rate / 12) ^ (years * 12) :=
      pow_le_pow_right₀ (by linarith) hk
    apply div_nonneg _ (by linarith)
    nlinarith
  have hbal_final :
      simValue P (rate / 12) (-(calculateMonthlyPayment P rate years)) (years * 12) = 0 := by
    rw [hbal]
    simp
  refine ⟨?_, ?_, ?_, ?_, ?_⟩
  · rw [hsched]
    exact loanLoop_length _ _ _ _ _
  · rw [hsched]
    exact loanLoop_payment _ _ _ _ _
  · intro k
    rw [hsched]
    by_cases hk : k < years * 12
    · rw [loanLoop_getD _ _ _ k 1 P hk]
      have h0 : toFixed2 0 ≤ toFixed2 (max 0
          (simValue P (rate / 12) (-(calculateMonthlyPayment P rate years)) (k + 1))) :=
        toFixed2_mono _ _ (le_max_left _ _)
      rw [toFixed2_zero] at h0
      exact h0
    · rw [List.getD_eq_default]
      rw [loanLoop_length]
      omega
  · intro k hk
    rw [hsched, loanLoop_getD _ _ _ (k + 1) 1 P (by omega),
      loanLoop_getD _ _ _ k 1 P (by omega)]
    apply toFixed2_mono
    exact max_le_max le_rfl (hbal_anti (k + 1))
  · rw [hsched, loanLoop_getD _ _ _ (years * 12 - 1) 1 P (by omega)]
    rw [show years * 12 - 1 + 1 = years * 12 from by omega, hbal_final]
    rw [show max (0:ℚ) 0 = 0 from by simp]
    exact toFixed2_zero

/-- Claim C4 witness: the theorem applied at principal 1200, rate 0.1, one
    year, extracting the schedule length conjunct. -/
theorem claim_C4_witness :
    (calculateLoanDetails 1200 (1/10) 1).paymentSchedule.length = 1 * 12 :=
  (claim_C4 1200 (1/10) 1 (by norm_num) (by norm_num) (by norm_num)).1

/-- The running maximum never decreases across the sweep. -/
theorem sweepLoop_init_le (p s lr : ℚ) (tm : ℕ) (ir yr cap : ℚ) :
    ∀ (l : List ℚ) (mx : WithBot ℚ) (opt : ℚ),
      mx ≤ (sweepLoop p s lr tm ir yr cap l mx opt).1 := by
  intro l
  induction l with
  | nil => intro mx opt; simp [sweepLoop]
  | cons d rest ih =>
    intro mx opt
    by_cases hf : p * (d / 100) ≤ s
    · by_cases hup : mx <
        ((calculateROIForDownPayment p s d lr tm ir yr cap).1 : WithBot ℚ)
      · simp only [sweepLoop, if_pos hf, if_pos hup]
        exact le_trans hup.le (ih _ _)
      · simp only [sweepLoop, if_pos hf, if_neg hup]
        exact ih _ _
    · simp only [sweepLoop, if_neg hf]
      exact ih _ _

/-- Every visited percentage's recorded roi is bounded by the final maximum. -/
theorem sweepLoop_roi_le (p s lr : ℚ) (tm : ℕ) (ir yr cap : ℚ) :
    ∀ (l : List ℚ) (mx : WithBot ℚ) (opt : ℚ) (dp : ℚ), dp ∈ l →
      sweepROI p s lr tm ir yr cap dp ≤ (sweepLoop p s lr tm ir yr cap l mx opt).1 := by
  intro l
  induction l with
  | nil => intro mx opt dp h; simp at h
  | cons d rest ih =>
    intro mx opt dp hdp
    rcases List.mem_cons.mp hdp with rfl | hmem
    · by_cases hf : p * (dp / 100) ≤ s
      · by_cases hup : mx <
          ((calculateROIForDownPayment p s dp lr tm ir yr cap).1 : WithBot ℚ)
        · simp only [sweepLoop, if_pos hf, if_pos hup]
          unfold sweepROI
          rw [if_pos hf]
          exact sweepLoop_init_le p s lr tm ir yr cap rest _ _
        · simp only [sweepLoop, if_pos hf, if_neg hup]
          unfold sweepROI
          rw [if_pos hf]
          exact le_trans (not_lt.mp hup) (sweepLoop_init_le p s lr tm ir yr cap rest _ _)
      · simp only [sweepLoop, if_neg hf]
        unfold sweepROI
        rw [if_neg hf]
        exact bot_le
    · by_cases hf : p * (d / 100) ≤ s
      · by_cases hup : mx <
          ((calculateROIForDownPayment p s d lr tm ir yr cap).1 : WithBot ℚ)
        · simp only [sweepLoop, if_pos hf, if_pos hup]
          exact ih _ _ dp hmem
        · simp only [sweepLoop, if_pos hf, if_neg hup]
          exact ih _ _ dp hmem
      · simp only [sweepLoop, if_neg hf]
        exact ih _ _ dp hmem

/-- The emitted analysis entries are exactly the per-percentage entries, in
    order, independent of the running state. -/
theorem sweepLoop_analysis (p s lr : ℚ) (tm : ℕ) (ir yr cap : ℚ) :
    ∀ (l : List ℚ) (mx : WithBot ℚ) (opt : ℚ),
      (sweepLoop p s lr tm ir yr cap l mx opt).2.2 =
        l.map (sweepEntry p s lr tm ir yr cap) := by
  intro l
  induction l with
  | nil => intro mx opt; simp [sweepLoop]
  | cons d rest ih =>
    intro mx opt
    by_cases hf : p * (d / 100) ≤ s
    · by_cases hup : mx <
        ((calculateROIForDownPayment p s d lr tm ir yr cap).1 : WithBot ℚ)
      · simp only [sweepLoop, if_pos hf, if_pos hup, List.map_cons]
        rw [ih]
        unfold sweepEntry
        rw [if_pos hf]
      · simp only [sweepLoop, if_pos hf, if_neg hup, List.map_cons]
        rw [ih]
        unfold sweepEntry
        rw [if_pos hf]
    · simp only [sweepLoop, if_neg hf, List.map_cons]
      rw [ih]
      unfold sweepEntry
      rw [if_neg hf]

/-- If no pending percentage improves on the running maximum, the final state
    is the current state. -/
theorem sweepLoop_no_improve (p s lr : ℚ) (tm : ℕ) (ir yr cap : ℚ) :
    ∀ (l : List ℚ) (mx : WithBot ℚ) (opt : ℚ),
      (∀ dp ∈ l, sweepROI p s lr tm ir yr cap dp ≤ mx) →
      (sweepLoop p s lr tm ir yr cap l mx opt).1 = mx ∧
      (sweepLoop p s lr tm ir yr cap l mx opt).2.1 = opt := by
  intro l
  induction l with
  | nil => intro mx opt _; simp [sweepLoop]
  | cons d rest ih =>
    intro mx opt h
    have hd := h d (List.mem_cons_self d rest)
    have hrest : ∀ dp ∈ rest, sweepROI p s lr tm ir yr cap dp ≤ mx :=
      fun dp hdp => h dp (List.mem_cons_of_mem d hdp)
    by_cases hf : p * (d / 100) ≤ s
    · have hroi : sweepROI p s lr tm ir yr cap d =
          ((calculateROIForDownPayment p s d lr tm ir yr cap).1 : WithBot ℚ) := by
        unfold sweepROI
        rw [if_pos hf]
      rw [hroi] at hd
      have hup : ¬ (mx < ((calculateROIForDownPayment p s d lr tm ir yr cap).1 :
          WithBot ℚ)) := not_lt.mpr hd
      simp only [sweepLoop, if_pos hf, if_neg hup]
      exact ih mx opt hrest
    · simp only [sweepLoop, if_neg hf]
      exact ih mx opt hrest

/-- When the sweep improves on its initial maximum, the final optimal
    percentage is the first one attaining the final maximum: the list splits
    around it, and every earlier percentage has a strictly smaller roi. -/
theorem sweepLoop_first_improve (p s lr : ℚ) (tm : ℕ) (ir yr cap : ℚ) :
    ∀ (l : List ℚ) (mx : WithBot ℚ) (opt : ℚ),
      mx < (sweepLoop p s lr tm ir yr cap l mx opt).1 →
      ∃ l1 dp l2, l = l1 ++ dp :: l2 ∧
        (sweepLoop p s lr tm ir yr cap l mx opt).2.1 = dp ∧
        sweepROI p s lr tm ir yr cap dp = (sweepLoop p s lr tm ir yr cap l mx opt).1 ∧
        ∀ d ∈ l1, sweepROI p s lr tm ir yr cap d <
          (sweepLoop p s lr tm ir yr cap l mx opt).1 := by
  intro l
  induction l with
  | nil =>
    intro mx opt h
    simp [sweepLoop] at h
  | cons d rest ih =>
    intro mx opt hlt
    by_cases hf : p * (d / 100) ≤ s
    · have hroid : sweepROI p s lr tm ir yr cap d =
          ((calculateROIForDownPayment p s d lr tm ir yr cap).1 : WithBot ℚ) := by
        unfold sweepROI
        rw [if_pos hf]
      by_cases hup : mx <
          ((calculateROIForDownPayment p s d lr tm ir yr cap).1 : WithBot ℚ)
      · have hfst : (sweepLoop p s lr tm ir yr cap (d :: rest) mx opt).1 =
            (sweepLoop p s lr tm ir yr cap rest
              ((calculateROIForDownPayment p s d lr tm ir yr cap).1 : WithBot ℚ) d).1 := by
          simp only [sweepLoop, if_pos hf, if_pos hup]
        have hsnd : (sweepLoop p s lr tm ir yr cap (d :: rest) mx opt).2.1 =
            (sweepLoop p s lr tm ir yr cap rest
              ((calculateROIForDownPayment p s d lr tm ir yr cap).1 : WithBot ℚ) d).2.1 := by
          simp only [sweepLoop, if_pos hf, if_pos hup]
        by_cases h2 : ((calculateROIForDownPayment p s d lr tm ir yr cap).1 : WithBot ℚ) <
            (sweepLoop p s lr tm ir yr cap rest
              ((calculateROIForDownPayment p s d lr tm ir yr cap).1 : WithBot ℚ) d).1
        · obtain ⟨l1, dp, l2, heq, hopt, hroi, hpre⟩ := ih _ _ h2
          refine ⟨d :: l1, dp, l2, by rw [heq, List.cons_append], ?_, ?_, ?_⟩
          · rw [hsnd]
            exact hopt
          · rw [hfst]
            exact hroi
          · intro x hx
            rcases List.mem_cons.mp hx with rfl | hx2
            · rw [hfst, hroid]
              exact h2
            · rw [hfst]
              exact hpre x hx2
        · have hM : (sweepLoop p s lr tm ir yr cap rest
              ((calculateROIForDownPayment p s d lr tm ir yr cap).1 : WithBot ℚ) d).1 =
              ((calculateROIForDownPayment p s d lr tm ir yr cap).1 : WithBot ℚ) :=
            le_antisymm (not_lt.mp h2) (sweepLoop_init_le p s lr tm ir yr cap rest _ _)
          have hall : ∀ x ∈ rest, sweepROI p s lr tm ir yr cap x ≤
              ((calculateROIForDownPayment p s d lr tm ir yr cap).1 : WithBot ℚ) := by
            intro x hx
            have hb := sweepLoop_roi_le p s lr tm ir yr cap rest
              ((calculateROIForDownPayment p s d lr tm ir yr cap).1 : WithBot ℚ) d x hx
            rwa [hM] at hb
          have hs3 := sweepLoop_no_improve p s lr tm ir yr cap rest
            ((calculateROIForDownPayment p s d lr tm ir yr cap).1 : WithBot ℚ) d hall
          refine ⟨[], d, rest, rfl, ?_, ?_, by simp⟩
          · rw [hsnd, hs3.2]
          · rw [hfst, hs3.1, hroid]
      · have hfst : (sweepLoop p s lr tm ir yr cap (d :: rest) mx opt).1 =
            (sweepLoop p s lr tm ir yr cap rest mx opt).1 := by
          simp only [sweepLoop, if_pos hf, if_neg hup]
        have hsnd : (sweepLoop p s lr tm ir yr cap (d :: rest) mx opt).2.1 =
            (sweepLoop p s lr tm ir yr cap rest mx opt).2.1 := by
          simp only [sweepLoop, if_pos hf, if_neg hup]
        have hlt2 : mx < (sweepLoop p s lr tm ir yr cap rest mx opt).1 := by
          rw [hfst] at hlt
          exact hlt
        obtain ⟨l1, dp, l2, heq, hopt, hroi, hpre⟩ := ih mx opt hlt2
        refine ⟨d :: l1, dp, l2, by rw [heq, List.cons_append], ?_, ?_, ?_⟩
        · rw [hsnd]
          exact hopt
        · rw [hfst]
          exact hroi
        · intro x hx
          rcases List.mem_cons.mp hx with rfl | hx2
          · rw [hfst, hroid]
            exact lt_of_le_of_lt (not_lt.mp hup) hlt2
          · rw [hfst]
            exact hpre x hx2
    · have hroid : sweepROI p s lr tm ir yr cap d = ⊥ := by
        unfold sweepROI
        rw [if_neg hf]
      have hfst : (sweepLoop p s lr tm ir yr cap (d :: rest) mx opt).1 =
          (sweepLoop p s lr tm ir yr cap rest mx opt).1 := by
        simp only [sweepLoop, if_neg hf]
      have hsnd : (sweepLoop p s lr tm ir yr cap (d :: rest) mx opt).2.1 =
          (sweepLoop p s lr tm ir yr cap rest mx opt).2.1 := by
        simp only [sweepLoop, if_neg hf]
      have hlt2 : mx < (sweepLoop p s lr tm ir yr cap rest mx opt).1 := by
        rw [hfst] at hlt
        exact hlt
      obtain ⟨l1, dp, l2, heq, hopt, hroi, hpre⟩ := ih mx opt hlt2
      refine ⟨d :: l1, dp, l2, by rw [heq, List.cons_append], ?_, ?_, ?_⟩
      · rw [hsnd]
        exact hopt
      · rw [hfst]
        exact hroi
      · intro x hx
        rcases List.mem_cons.mp hx with rfl | hx2
        · rw [hfst, hroid]
          exact lt_of_le_of_lt bot_le hlt2
        · rw [hfst]
          exact hpre x hx2

/-- The entry's roi field coincides with the sweep roi value. -/
theorem sweepEntry_roi (p s lr : ℚ) (tm : ℕ) (ir yr cap dp : ℚ) :
    (sweepEntry p s lr tm ir yr cap dp).roi = sweepROI p s lr tm ir yr cap dp := by
  unfold sweepEntry sweepROI
  split <;> rfl

/-- The entry remembers its own percentage. -/
theorem sweepEntry_downPayment (p s lr : ℚ) (tm : ℕ) (ir yr cap dp : ℚ) :
    (sweepEntry p s lr tm ir yr cap dp).downPayment = dp := by
  unfold sweepEntry
  split <;> rfl

/-- An entry is marked feasible exactly when its recorded roi is not the
    -Infinity marker. -/
theorem sweepEntry_feasible_iff (p s lr : ℚ) (tm : ℕ) (ir yr cap dp : ℚ) :
    (sweepEntry p s lr tm ir yr cap dp).feasible = true ↔
      sweepROI p s lr tm ir yr cap dp ≠ ⊥ := by
  unfold sweepEntry sweepROI
  split
  · simp
  · simp

/-- The visited percentages are strictly increasing. -/
theorem sweepList_sorted (a b : ℚ) : (sweepList a b).Pairwise (· < ·) := by
  unfold sweepList
  split
  · refine List.Pairwise.map (fun k : ℕ => a + (k : ℚ)) ?_ (List.pairwise_lt_range _)
    intro x y h
    exact add_lt_add_left (by exact_mod_cast h) a
  · exact List.Pairwise.nil

/-- The sweep result's analysis list. -/
theorem findOptimal_roiAnalysis (p s lr : ℚ) (tm : ℕ) (ir yr cap minDP maxDP : ℚ) :
    (findOptimalDownPaymentForROI p s lr tm ir yr cap minDP maxDP).roiAnalysis =
      (sweepLoop p s lr tm ir yr cap (sweepList minDP maxDP) ⊥ minDP).2.2 := rfl

/-- The sweep result's maximum roi. -/
theorem findOptimal_maxROI (p s lr : ℚ) (tm : ℕ) (ir yr cap minDP maxDP : ℚ) :
    (findOptimalDownPaymentForROI p s lr tm ir yr cap minDP maxDP).maxROI =
      (sweepLoop p s lr tm ir yr cap (sweepList minDP maxDP) ⊥ minDP).1 := rfl

/-- The sweep result's optimal percentage. -/
theorem findOptimal_optimalDownPayment
    (p s lr : ℚ) (tm : ℕ) (ir yr cap minDP maxDP : ℚ) :
    (findOptimalDownPaymentForROI p s lr tm ir yr cap minDP maxDP).optimalDownPayment =
      (sweepLoop p s lr tm ir yr cap (sweepList minDP maxDP) ⊥ minDP).2.1 := rfl

/-- Claim C5: whenever at least one visited down-payment percentage is
    feasible, findOptimalDownPaymentForROI returns maxROI equal to the maximum
    roi among the feasible entries of roiAnalysis, and optimalDownPayment is
    the smallest percentage attaining that maximum (ties keep the first, since
    the comparison is strict). -/
theorem claim_C5 (p s lr : ℚ) (tm : ℕ) (ir yr cap minDP maxDP : ℚ)
    (hfeas : ∃ e ∈ (findOptimalDownPaymentForROI p s lr tm ir yr cap minDP
      maxDP).roiAnalysis, e.feasible = true) :
    (∀ e ∈ (findOptimalDownPaymentForROI p s lr tm ir yr cap minDP maxDP).roiAnalysis,
      e.feasible = true →
      e.roi ≤ (findOptimalDownPaymentForROI p s lr tm ir yr cap minDP maxDP).maxROI) ∧
    (∃ e ∈ (findOptimalDownPaymentForROI p s lr tm ir yr cap minDP maxDP).roiAnalysis,
      e.feasible = true ∧
      e.roi = (findOptimalDownPaymentForROI p s lr tm ir yr cap minDP maxDP).maxROI ∧
      e.downPayment =
        (findOptimalDownPaymentForROI p s lr tm ir yr cap minDP
          maxDP).optimalDownPayment) ∧
    (∀ e ∈ (findOptimalDownPaymentForROI p s lr tm ir yr cap minDP maxDP).roiAnalysis,
      e.feasible = true →
      e.roi = (findOptimalDownPaymentForROI p s lr tm ir yr cap minDP maxDP).maxROI →
      (findOptimalDownPaymentForROI p s lr tm ir yr cap minDP
        maxDP).optimalDownPayment ≤ e.downPayment) := by
  have hA : (findOptimalDownPaymentForROI p s lr tm ir yr cap minDP maxDP).roiAnalysis =
      (sweepList minDP maxDP).map (sweepEntry p s lr tm ir yr cap) := by
    rw [findOptimal_roiAnalysis, sweepLoop_analysis]
  obtain ⟨e0, he0, hef0⟩ := hfeas
  rw [hA] at he0
  obtain ⟨d0, hd0, hde0⟩ := List.mem_map.mp he0
  have hroi0 : sweepROI p s lr tm ir yr cap d0 ≠ ⊥ := by
    apply (sweepEntry_feasible_iff p s lr tm ir yr cap d0).mp
    rw [hde0]
    exact hef0
  have hbot : (⊥ : WithBot ℚ) <
      (sweepLoop p s lr tm ir yr cap (sweepList minDP maxDP) ⊥ minDP).1 :=
    lt_of_lt_of_le (bot_lt_iff_ne_bot.mpr hroi0)
      (sweepLoop_roi_le p s lr tm ir yr cap _ ⊥ minDP d0 hd0)
  obtain ⟨l1, dpstar, l2, hsplit, hopt, hroistar, hpre⟩ :=
    sweepLoop_first_improve p s lr tm ir yr cap (sweepList minDP maxDP) ⊥ minDP hbot
  refine ⟨?_, ?_, ?_⟩
  · intro e he _
    rw [hA] at he
    obtain ⟨d, hd, rfl⟩ := List.mem_map.mp he
    rw [sweepEntry_roi, findOptimal_maxROI]
    exact sweepLoop_roi_le p s lr tm ir yr cap _ ⊥ minDP d hd
  · refine ⟨sweepEntry p s lr tm ir yr cap dpstar, ?_, ?_, ?_, ?_⟩
    · rw [hA]
      apply List.mem_map_of_mem
      rw [hsplit]
      exact List.mem_append.mpr (Or.inr (List.mem_cons_self _ _))
    · apply (sweepEntry_feasible_iff p s lr tm ir yr cap dpstar).mpr
      rw [hroistar]
      exact ne_of_gt hbot
    · rw [sweepEntry_roi, hroistar, findOptimal_maxROI]
    · rw [sweepEntry_downPayment, findOptimal_optimalDownPayment, hopt]
  · intro e he _ hroieq
    rw [hA] at he
    obtain ⟨d, hd, rfl⟩ := List.mem_map.mp he
    rw [sweepEntry_downPayment, findOptimal_optimalDownPayment, hopt]
    rw [sweepEntry_roi, findOptimal_maxROI] at hroieq
    have hsort := sweepList_sorted minDP maxDP
    rw [hsplit] at hsort hd
    rcases List.mem_append.mp hd with hin1 | hin2
    · exact absurd hroieq (ne_of_lt (hpre d hin1))
    · rcases List.mem_cons.mp hin2 with rfl | hin3
      · exact le_rfl
      · have hpair := (List.pairwise_cons.mp (List.pairwise_append.mp hsort).2.1).1
        exact (hpair d hin3).le

/-- Claim C5 witness: the attainment conjunct of the theorem at a concrete
    sweep over the single percentage 0, which is feasible. -/
theorem claim_C5_witness :
    ∃ e ∈ (findOptimalDownPaymentForROI 100 100 0 12 0 0 0 0 0).roiAnalysis,
      e.feasible = true ∧
      e.roi = (findOptimalDownPaymentForROI 100 100 0 12 0 0 0 0 0).maxROI ∧
      e.downPayment =
        (findOptimalDownPaymentForROI 100 100 0 12 0 0 0 0 0).optimalDownPayment :=
  (claim_C5 100 100 0 12 0 0 0 0 0 (by
    rw [findOptimal_roiAnalysis, sweepLoop_analysis]
    have hl : sweepList 0 0 = [(0:ℚ)] := by
      unfold sweepList
      rw [if_pos le_rfl]
      norm_num [List.range_succ]
    rw [hl]
    refine ⟨sweepEntry 100 100 0 12 0 0 0 0, by simp, ?_⟩
    apply (sweepEntry_feasible_iff 100 100 0 12 0 0 0 0).mpr
    unfold sweepROI
    rw [if_pos (by norm_num)]
    exact WithBot.coe_ne_bot)).2.1
